import Mathlib

/-!
# Verification of the Da-editor rendering core (`src/core/video_creator_pro.py`)

Shallow embedding of the `VideoCreatorPro` class (v6, single-filtergraph
renderer).  Durations and time offsets are modelled as rationals (`ℚ`);
the Python floats in the source are the literal decimal constants, which
the code only ever adds, multiplies and compares, so `ℚ` is an exact model.
External effects (ffmpeg subprocesses, the filesystem, `random`) are
modelled as explicit oracle inputs, so every definition is executable.
-/

namespace DaEditor

/-! ## Transition offsets (`_build_slideshow_single_pass`, lines 231-262)

For `n ≥ 2` clips the code seeds `current_offset = duration - transition_dur`
for the first `xfade`, then executes `current_offset += duration -
transition_dur` once per remaining transition (the loop `for i in
range(2, n)` runs `n - 2` times).  `xfadeOffsetsFrom cur step k` mirrors
that loop: it emits the `k` successive values of `current_offset`. -/

def xfadeOffsetsFrom (cur step : ℚ) : ℕ → List ℚ
  | 0 => []
  | k + 1 => (cur + step) :: xfadeOffsetsFrom (cur + step) step k

/-- Offsets handed to the `k`-th `xfade` filter (`k = 1 .. n-1`), in order,
for `n` images of per-unit duration `d` joined with transition duration `t`.
Mirrors the `n == 2`, `n > 2` and degenerate branches of the source. -/
def xfadeOffsets (n : ℕ) (d t : ℚ) : List ℚ :=
  if n < 2 then []
  else (d - t) :: xfadeOffsetsFrom (d - t) (d - t) (n - 2)

/-! ## Stinger placements (`_add_sfx_single_pass`, lines 389-423)

`total_duration = num_clips * clip_duration + 2`; `num_transitions =
num_clips - 1`; when positive, the loop runs over
`range(min(num_transitions, 30))`, breaking once
`current_time >= total_duration - 1`, starting from
`current_time = clip_duration - 0.4` and stepping by `clip_duration`.
Each loop pass records one placement at `current_time` (stored by the code
as `int(current_time * 1000)` milliseconds). -/

def stingLoop (clipDuration totalDuration : ℚ) : ℕ → ℚ → List ℚ
  | 0, _ => []
  | k + 1, cur =>
    if totalDuration - 1 ≤ cur then []
    else cur :: stingLoop clipDuration totalDuration k (cur + clipDuration)

/-- The list of stinger placement times (seconds) produced by
`_add_sfx_single_pass` for `numClips` units of `clipDuration` seconds each,
assuming a non-empty sound pool. -/
def stingPlacements (numClips : ℕ) (clipDuration : ℚ) : List ℚ :=
  let totalDuration : ℚ := numClips * clipDuration + 2
  if numClips ≤ 1 then []
  else stingLoop clipDuration totalDuration (min (numClips - 1) 30) (clipDuration - 2/5)

/-! ## Output validation (`_validate_output`, lines 799-818)

The probe result is modelled as the data an `ffprobe` call makes available:
its exit code and its stripped stdout (the codec name of the first video
stream).  `probe = none` models an exception raised during probing, which
the bare `except` turns into `False`.  The probe data also carries the frame
dimensions and whether a bounded decode attempt would succeed — information
`ffprobe`/`ffmpeg` could report but which `_validate_output` never asks
for; they are recorded so the spec's claimed checks can be compared against
the code's actual ones. -/

structure ProbeInfo where
  returncode : Int
  codecName : String
  width : ℕ
  height : ℕ
  decodeOk : Bool
deriving DecidableEq

structure OutputFile where
  onDisk : Bool
  size : ℕ
  probe : Option ProbeInfo
deriving DecidableEq

/-- `_validate_output`: file must exist, be at least 10000 bytes, and an
`ffprobe` of the first video stream's codec name must exit 0 with non-empty
(stripped) stdout; a probing exception yields `false`. -/
def validateOutput (f : OutputFile) : Bool :=
  if !f.onDisk then false
  else if f.size < 10000 then false
  else
    match f.probe with
    | none => false
    | some p => p.returncode == 0 && !(p.codecName == "")

/-- Follows the spec's words for claim C3 (the checks the spec says
`validate` performs): existence, size floor, recognized codec, frame
dimensions above a minimum floor `minDim`, and a successful bounded decode
attempt. -/
def validateClaimC3 (minDim : ℕ) (f : OutputFile) : Bool :=
  if !f.onDisk then false
  else if f.size < 10000 then false
  else
    match f.probe with
    | none => false
    | some p =>
      p.returncode == 0 && !(p.codecName == "")
        && decide (minDim < p.width) && decide (minDim < p.height)
        && p.decodeOk

/-! ## Motion / zoom expressions
(`_build_slideshow_single_pass` lines 199-229, `_create_single_image_video`
lines 342-368)

The multi-image path chooses a `zoompan` zoom expression per image from the
`motionLevel` setting: `"off"` always yields the constant `"1"`; `"slow"`
draws uniformly from `["zoom_in", "static", "static"]` with rate `0.015`;
`"medium"` draws from `["zoom_in", "zoom_out", "static"]` with rate `0.03`.
`random.choice` over a 3-element list is modelled by an oracle index taken
mod 3.  The single-image path hardcodes `z='1+0.05*on/total_frames'` and
takes no motion argument at all — exactly as `_create_single_image_video`'s
signature has none. -/

inductive MotionLevel
  | off
  | slow
  | medium
deriving DecidableEq

inductive ZoomExpr
  | static
  | zoomIn (rate : ℚ)
  | zoomOut (rate : ℚ)
deriving DecidableEq

/-- Value of the zoom expression at output frame `f` of a clip of
`totalFrames` frames (`on` is the `zoompan` frame counter):
`"1"`, `"1+r*on/F"`, or `"(1+r)-r*on/F"` (the code writes the latter as
`1.03-0.03*on/F`). -/
def zoomAt : ZoomExpr → ℕ → ℕ → ℚ
  | .static, _, _ => 1
  | .zoomIn r, totalFrames, f => 1 + r * f / totalFrames
  | .zoomOut r, totalFrames, f => (1 + r) - r * f / totalFrames

/-- The zoom expression `_build_slideshow_single_pass` picks for one image,
given the motion level and the `random.choice` oracle `pick`. -/
def chooseZoom : MotionLevel → ℕ → ZoomExpr
  | .off, _ => .static
  | .slow, pick => if pick % 3 = 0 then .zoomIn (3/200) else .static
  | .medium, pick =>
    match pick % 3 with
    | 0 => .zoomIn (3/100)
    | 1 => .zoomOut (3/100)
    | _ => .static

/-- The zoom applied by `_create_single_image_video` at frame `f`:
`1 + 0.05*on/total_frames`, regardless of any motion setting. -/
def singleImageZoomAt (totalFrames f : ℕ) : ℚ :=
  1 + (1/20) * f / totalFrames

/-! ## Per-unit duration (`create_slideshow`, lines 104-112)

`seconds_per_image` defaults to the settings value (default 4.0); when a
truthy `targetDuration` is supplied and the image list is non-empty it is
recomputed as `max(2.5, min(6.0, target_duration / len(images)))`. -/

def secondsPerImage (base : ℚ) (targetDuration : Option ℚ)
    (numImages : ℕ) : ℚ :=
  match targetDuration with
  | none => base
  | some target =>
    if target ≠ 0 ∧ 0 < numImages then max (5/2) (min 6 (target / numImages))
    else base

/-! ## Source-video sampling (`create_youtube_mix`, lines 644-684)

Per source video: probe the duration (`none` models a failed probe); skip
sources with `duration < 20`; the safe zone is
`[duration*0.15, duration*0.85]`; skip if it is shorter than 10 s.  Each
random draw is a pair `(clipDur, u)`: `clipDur = random.uniform(1.5, 5.0)`
and `u ∈ [0,1]` is the position oracle of
`random.uniform(start_safe, max_start) = start_safe + u*(max_start -
start_safe)`.  A draw with `max_start ≤ start_safe` is skipped. -/

def clipMinDur : ℚ := 3/2

def clipMaxDur : ℚ := 5

def avoidPercent : ℚ := 3/20

/-- The `(clip_start, clip_dur)` pairs one source video contributes to
`clip_specs`. -/
def sourceClipSpecs (duration : Option ℚ) (draws : List (ℚ × ℚ)) :
    List (ℚ × ℚ) :=
  match duration with
  | none => []
  | some d =>
    if d < 20 then []
    else
      let startSafe := d * avoidPercent
      let endSafe := d * (1 - avoidPercent)
      if endSafe - startSafe < 10 then []
      else
        draws.filterMap fun dw =>
          let maxStart := endSafe - dw.1
          if maxStart ≤ startSafe then none
          else some (startSafe + dw.2 * (maxStart - startSafe), dw.1)

/-! ## Render entry points (`create_slideshow` lines 88-163,
`create_portrait` lines 480-546, `create_youtube_mix` lines 619-756)

Each ffmpeg/filesystem step is summarised by a `StepOutcome`: whether the
call reported success (`ok`), whether its output file is on disk afterwards
(`leftFile` — a failed ffmpeg run may still leave a partial file), and
whether the call raised a Python exception (`raised`), which the entry
point's bare `except` turns into a `None` return.  `FSState` tracks the
intermediate `_single_pass.mp4` temp file and the final output file of one
slideshow render. -/

structure StepOutcome where
  ok : Bool
  leftFile : Bool
  raised : Bool
deriving DecidableEq

structure FSState where
  tempVideo : Bool
  outputFile : Bool
deriving DecidableEq

structure SlideshowWorld where
  onDisk : String → Bool
  singleImageStep : StepOutcome
  singlePassStep : StepOutcome
  fallbackStep : StepOutcome
  sfxStep : StepOutcome
  soundFiles : List String
  validates : Bool

def slideshowOutputName : String := "output_video.mp4"

/-- Lines 150-157: `_safe_delete(temp_video)` then the
`os.path.exists(output_path) and _validate_output(output_path)` gate. -/
def slideshowFinish (w : SlideshowWorld) (fs : FSState) :
    Option String × FSState :=
  let fs' : FSState := ⟨false, fs.outputFile⟩
  if fs'.outputFile ∧ w.validates then (some slideshowOutputName, fs')
  else (none, fs')

/-- Lines 143-148: the SFX pass (`if self.sound_files and
os.path.exists(temp_video)`), else move the temp video to the output path.
An exception inside `_add_sfx_single_pass` skips the cleanup on line 151
and is caught by the outer `except`, returning `None`. -/
def slideshowAfterBuild (w : SlideshowWorld) (fs : FSState) :
    Option String × FSState :=
  if w.soundFiles ≠ [] ∧ fs.tempVideo = true then
    if w.sfxStep.raised then (none, ⟨fs.tempVideo, w.sfxStep.leftFile⟩)
    else slideshowFinish w ⟨fs.tempVideo, w.sfxStep.leftFile⟩
  else if fs.tempVideo then slideshowFinish w ⟨false, true⟩
  else slideshowFinish w ⟨false, fs.outputFile⟩

/-- `create_slideshow`: filter the images to those on disk; `None` when
none survive; build via the single-image helper (`N = 1`), or the
single-pass filtergraph with the concat fallback (`N ≥ 2`); the
double-build-failure path (line 141) returns `None` without touching the
temp file; any raise is caught by the bare `except` (line 159) and becomes
`None`. -/
def createSlideshow (w : SlideshowWorld) (images : List String) :
    Option String × FSState :=
  let kept := images.filter w.onDisk
  if kept = [] then (none, ⟨false, false⟩)
  else if kept.length = 1 then
    if w.singleImageStep.raised then (none, ⟨w.singleImageStep.leftFile, false⟩)
    else slideshowAfterBuild w ⟨w.singleImageStep.leftFile, false⟩
  else if w.singlePassStep.raised then (none, ⟨w.singlePassStep.leftFile, false⟩)
  else if w.singlePassStep.ok then
    slideshowAfterBuild w ⟨w.singlePassStep.leftFile, false⟩
  else if w.fallbackStep.raised then (none, ⟨w.fallbackStep.leftFile, false⟩)
  else if w.fallbackStep.ok then
    slideshowAfterBuild w ⟨w.fallbackStep.leftFile, false⟩
  else (none, ⟨w.fallbackStep.leftFile, false⟩)

/-- What `_add_sfx_single_pass` leaves at `output_path`: a full audio mix,
or a bare copy/move of the incoming video (empty pool, `N ≤ 1`, no
placements, or a failed ffmpeg mix — lines 385-394, 425-427, 474-477). -/
inductive SfxResult
  | mixed
  | videoCopy
deriving DecidableEq

def addSfxSinglePass (soundFiles : List String) (numClips : ℕ)
    (clipDuration : ℚ) (mixOk : Bool) : SfxResult :=
  if soundFiles = [] then .videoCopy
  else if numClips ≤ 1 then .videoCopy
  else if stingPlacements numClips clipDuration = [] then .videoCopy
  else if mixOk then .mixed else .videoCopy

structure PortraitWorld where
  onDisk : String → Bool
  buildRaised : Bool
  buildOk : Bool
  sfxRaised : Bool
  soundFiles : List String
  overlayEnabled : Bool
  overlayOk : Bool
  validates : Bool

def portraitOutputName : String := "broll_instagram.mp4"

/-- `create_portrait`: filter, `None` on empty, build the portrait concat
(failure or raise → `None`), SFX pass when the pool is non-empty (raise →
`None`), then — with or without a face overlay, and whether or not the
overlay succeeds — a file is moved to the output path and gated on
validation. -/
def createPortrait (w : PortraitWorld) (images : List String) :
    Option String :=
  let kept := images.filter w.onDisk
  if kept = [] then none
  else if w.buildRaised then none
  else if !w.buildOk then none
  else if w.soundFiles ≠ [] ∧ w.sfxRaised = true then none
  else if w.validates then some portraitOutputName
  else none

structure YtWorld where
  onDisk : String → Bool
  probedDuration : String → Option ℚ
  draws : String → List (ℚ × ℚ)
  shuffle : List (String × ℚ × ℚ) → List (String × ℚ × ℚ)
  extractOk : ℕ → Bool
  concatRaised : Bool
  concatOk : Bool
  sfxRaised : Bool
  soundFiles : List String
  validates : Bool
  targetDurationSetting : ℚ

def youtubeOutputName : String := "broll_youtube.mp4"

/-- Lines 677-684: keep shuffled clip specs until the accumulated duration
reaches the target. -/
def takeUntilDur (target : ℚ) : List (String × ℚ × ℚ) → ℚ →
    List (String × ℚ × ℚ)
  | [], _ => []
  | s :: rest, acc =>
    if target ≤ acc then [] else s :: takeUntilDur target rest (acc + s.2.2)

/-- `create_youtube_mix`: filter the sources, build per-source clip specs
(`sourceClipSpecs`), shuffle, truncate to the target duration
(`min(targetDuration, 120)`), extract the surviving clips, concat, SFX and
validate; every internal failure or caught raise yields `None`. -/
def createYoutubeMix (w : YtWorld) (videos : List String) : Option String :=
  let kept := videos.filter w.onDisk
  if kept = [] then none
  else
    let clipSpecs := kept.flatMap fun v =>
      (sourceClipSpecs (w.probedDuration v) (w.draws v)).map
        fun p => (v, p.1, p.2)
    if clipSpecs = [] then none
    else
      let finalSpecs :=
        takeUntilDur (min w.targetDurationSetting 120) (w.shuffle clipSpecs) 0
      if finalSpecs = [] then none
      else if (List.range finalSpecs.length).filter w.extractOk = [] then none
      else if w.concatRaised then none
      else if !w.concatOk then none
      else if w.soundFiles ≠ [] ∧ w.sfxRaised = true then none
      else if w.validates then some youtubeOutputName
      else none

/-! ### Sample worlds (used by witnesses and concrete evaluations) -/

def sampleStep : StepOutcome := ⟨true, true, false⟩

def emptyDiskSlideshowWorld : SlideshowWorld :=
  ⟨fun _ => false, sampleStep, sampleStep, sampleStep, sampleStep, [], true⟩

def goodSlideshowWorld : SlideshowWorld :=
  ⟨fun _ => true, sampleStep, sampleStep, sampleStep, sampleStep, [], true⟩

def emptyDiskPortraitWorld : PortraitWorld :=
  ⟨fun _ => false, false, true, false, [], false, false, true⟩

def emptyDiskYtWorld : YtWorld :=
  ⟨fun _ => false, fun _ => none, fun _ => [], id, fun _ => true,
    false, true, false, [], true, 60⟩

/-- The world of the C10 failing input: `_build_slideshow_single_pass`'s
ffmpeg run fails but leaves a partial `_single_pass.mp4` (≤ 1000 bytes, so
the function returns `False`), and `_build_slideshow_fallback`'s ffmpeg run
also fails with the partial file still on disk. -/
def leakWorld : SlideshowWorld :=
  ⟨fun _ => true, ⟨true, true, false⟩, ⟨false, true, false⟩,
    ⟨false, true, false⟩, ⟨true, true, false⟩, [], true⟩

/-! ### Helper lemmas -/

theorem xfadeOffsetsFrom_length (cur step : ℚ) (k : ℕ) :
    (xfadeOffsetsFrom cur step k).length = k := by
  induction k generalizing cur with
  | zero => rfl
  | succ k ih => simp [xfadeOffsetsFrom, ih]

theorem xfadeOffsetsFrom_get (step : ℚ) (k : ℕ) :
    ∀ (cur : ℚ) (i : ℕ), i < k →
      (xfadeOffsetsFrom cur step k).get? i = some (cur + (i + 1) * step) := by
  induction k with
  | zero => intro cur i h; omega
  | succ k ih =>
    intro cur i h
    cases i with
    | zero => simp [xfadeOffsetsFrom]
    | succ i =>
      have hi : i < k := by omega
      simp only [xfadeOffsetsFrom, List.get?_cons_succ]
      rw [ih (cur + step) i hi]
      congr 1
      push_cast
      ring

theorem stingLoop_length (d total : ℚ) (k : ℕ) :
    ∀ cur : ℚ, (∀ j : ℕ, j < k → cur + j * d < total - 1) →
      (stingLoop d total k cur).length = k := by
  induction k with
  | zero => intro cur _; rfl
  | succ k ih =>
    intro cur h
    have h0 : cur < total - 1 := by
      have := h 0 (by omega)
      simpa using this
    simp only [stingLoop, if_neg (not_le.mpr h0), List.length_cons]
    rw [ih (cur + d)]
    intro j hj
    have := h (j + 1) (by omega)
    calc cur + d + j * d = cur + (j + 1) * d := by ring
    _ < total - 1 := by push_cast at this ⊢; linarith

theorem stingLoop_mem (d total : ℚ) (hd : 0 < d) (k : ℕ) :
    ∀ (cur : ℚ) (p : ℚ), p ∈ stingLoop d total k cur →
      cur ≤ p ∧ p < total - 1 := by
  induction k with
  | zero => intro cur p h; simp [stingLoop] at h
  | succ k ih =>
    intro cur p h
    simp only [stingLoop] at h
    by_cases hc : total - 1 ≤ cur
    · simp [hc] at h
    · rw [if_neg hc] at h
      rcases List.mem_cons.mp h with h1 | h2
      · exact ⟨le_of_eq h1.symm, by subst h1; linarith [not_le.mp hc]⟩
      · have := ih (cur + d) p h2
        exact ⟨by linarith [this.1], this.2⟩

/-! ## Claim C1 -/

/-- C1 (counterexample): the claim says the `k`-th cross-dissolve's offset is
`k*d - t` (sum of prior clip durations minus one transition duration).  With
3 clips, `d = 4`, `t = 0.5`, the 2nd xfade's offset computed by
`_build_slideshow_single_pass` is `7`, while the claim's formula gives
`2*4 - 0.5 = 7.5`. -/
theorem C1_counterexample :
    (xfadeOffsets 3 4 (1/2)).get? 1 = some 7 ∧ ((7 : ℚ) ≠ 2 * 4 - 1/2) := by
  constructor
  · norm_num [xfadeOffsets, xfadeOffsetsFrom]
  · norm_num

/-- C1 (amended): for `n ≥ 2` clips of per-unit duration `d` joined with
transition duration `t`, the `k`-th xfade (`k = 1 .. n-1`, here `k = i+1`
with list index `i`) receives offset `k * (d - t)`, i.e. the sum of prior
clip durations minus `k` transition durations — each earlier xfade shortens
the running composite stream by `t`, so this is the drift-free chaining
formula. -/
theorem C1_xfade_offset_chain (n : ℕ) (d t : ℚ) (i : ℕ)
    (hn : 2 ≤ n) (hi : i < n - 1) :
    (xfadeOffsets n d t).get? i = some ((i + 1) * (d - t)) := by
  unfold xfadeOffsets
  rw [if_neg (by omega)]
  cases i with
  | zero => simp
  | succ i =>
    simp only [List.get?_cons_succ]
    rw [xfadeOffsetsFrom_get (d - t) (n - 2) (d - t) i (by omega)]
    congr 1
    push_cast
    ring

/-- C1 witness: the amended offset formula, instantiated at `n = 3`,
`d = 4`, `t = 1/2`, first transition. -/
theorem C1_xfade_offset_chain_witness :
    (2 ≤ 3 ∧ 0 < 3 - 1) ∧
      (xfadeOffsets 3 4 (1/2)).get? 0 = some ((0 + 1) * (4 - 1/2)) :=
  ⟨⟨by norm_num, by norm_num⟩,
    C1_xfade_offset_chain 3 4 (1/2) 0 (by norm_num) (by norm_num)⟩

/-! ## Claim C3 -/

/-- C3 (counterexample): `_validate_output` performs no frame-dimension
check and no decode attempt.  A file that exists, has 20000 bytes and whose
probe reports exit code 0 with codec `h264` — but with degenerate 1×1
dimensions and a failing decode — passes the code's validation while the
claimed check list would reject it. -/
theorem C3_counterexample :
    validateOutput ⟨true, 20000, some ⟨0, "h264", 1, 1, false⟩⟩ = true ∧
      validateClaimC3 1 ⟨true, 20000, some ⟨0, "h264", 1, 1, false⟩⟩ = false := by
  constructor
  · rfl
  · rfl

/-- C3 (amended): `validate(path)` checks, in order and short-circuiting on
the first failure: the file exists; its size is at least the 10000-byte
floor; and probing (any exception yielding `false` rather than
propagating) reports exit code 0 with a non-empty video codec name.  It
performs no frame-dimension check and no decode attempt. -/
theorem C3_validate_characterization (f : OutputFile) :
    validateOutput f = true ↔
      f.onDisk = true ∧ 10000 ≤ f.size ∧
        ∃ p, f.probe = some p ∧ p.returncode = 0 ∧ p.codecName ≠ "" := by
  obtain ⟨e, s, pr⟩ := f
  dsimp only
  cases e with
  | false => simp [validateOutput]
  | true =>
    cases pr with
    | none => simp [validateOutput]
    | some p =>
      obtain ⟨rc, cn, w, h, dec⟩ := p
      by_cases hs : s < 10000
      · simp only [validateOutput, Bool.not_true, Bool.false_eq_true, if_false,
          if_pos hs]
        constructor
        · intro hv; exact absurd hv (by simp)
        · rintro ⟨-, hle, -⟩; exact absurd hle (by omega)
      · simp only [validateOutput, Bool.not_true, Bool.false_eq_true, if_false,
          if_neg hs]
        constructor
        · intro hv
          simp only [Bool.and_eq_true, beq_iff_eq, Bool.not_eq_true',
            beq_eq_false_iff_ne, ne_eq] at hv
          exact ⟨by trivial, by omega, ⟨rc, cn, w, h, dec⟩, rfl, hv.1, hv.2⟩
        · rintro ⟨-, -, p', hp', hrc, hcn⟩
          obtain rfl : p' = ⟨rc, cn, w, h, dec⟩ := by
            injection hp' with hh
            exact hh.symm
          simp only [Bool.and_eq_true, beq_iff_eq, Bool.not_eq_true',
            beq_eq_false_iff_ne, ne_eq]
          exact ⟨hrc, hcn⟩

/-! ## Claim C2 -/

/-- C2 (counterexample): the claim says a render of `N` units always yields
exactly `max(0, N-1)` stinger placements, but `_add_sfx_single_pass` caps the
loop at 30 (`range(min(num_transitions, 30))`): with `N = 32` units of 4
seconds each it produces 30 placements, not `32 - 1 = 31`. -/
theorem C2_counterexample :
    (stingPlacements 32 4).length = 30 ∧ (30 : ℕ) ≠ max 0 (32 - 1) := by
  constructor
  · norm_num [stingPlacements, stingLoop]
  · decide

/-- C2 (amended): for `N ≥ 1` units of per-unit duration `d > 0.4` (all
clamped slideshow durations satisfy this) and a non-empty sound pool, the
mixer creates exactly `min(max(0, N-1), 30)` stinger placements, and every
placement's time offset lies strictly inside `(0, total_duration)` where
`total_duration = N*d + 2`. -/
theorem C2_sting_count_and_interval (N : ℕ) (d : ℚ)
    (hN : 1 ≤ N) (hd : 2/5 < d) :
    (stingPlacements N d).length = min (N - 1) 30 ∧
      ∀ p ∈ stingPlacements N d, 0 < p ∧ p < N * d + 2 := by
  have hd0 : (0 : ℚ) < d := lt_trans (by norm_num) hd
  by_cases h1 : N ≤ 1
  · have hN1 : N = 1 := le_antisymm h1 hN
    subst hN1
    simp [stingPlacements]
  · have h2 : 2 ≤ N := by omega
    have hcast : ((N - 1 : ℕ) : ℚ) = (N : ℚ) - 1 := by
      push_cast [Nat.cast_sub (by omega : 1 ≤ N)]; ring
    constructor
    · unfold stingPlacements
      rw [if_neg h1]
      apply stingLoop_length
      intro j hj
      have hjN : j + 1 ≤ N - 1 := by
        have := lt_of_lt_of_le hj (min_le_left _ _)
        omega
      have hjQ : ((j : ℚ) + 1) ≤ (N : ℚ) - 1 := by
        have : ((j + 1 : ℕ) : ℚ) ≤ ((N - 1 : ℕ) : ℚ) := by exact_mod_cast hjN
        rw [hcast] at this
        push_cast at this
        linarith
      have hmul : ((j : ℚ) + 1) * d ≤ ((N : ℚ) - 1) * d :=
        mul_le_mul_of_nonneg_right hjQ (le_of_lt hd0)
      nlinarith
    · intro p hp
      unfold stingPlacements at hp
      rw [if_neg h1] at hp
      have := stingLoop_mem d ((N : ℚ) * d + 2) hd0 _ _ p hp
      constructor
      · linarith [this.1]
      · linarith [this.2]

/-- C2 witness: `N = 3`, `d = 4` — two placements, both strictly inside
`(0, 14)`. -/
theorem C2_sting_count_and_interval_witness :
    (1 ≤ 3 ∧ (2/5 : ℚ) < 4) ∧
      ((stingPlacements 3 4).length = min (3 - 1) 30 ∧
        ∀ p ∈ stingPlacements 3 4, 0 < p ∧ p < 3 * 4 + 2) :=
  ⟨⟨by norm_num, by norm_num⟩,
    by
      have h := C2_sting_count_and_interval 3 4 (by norm_num) (by norm_num)
      constructor
      · exact h.1
      · intro p hp
        have := h.2 p hp
        constructor
        · exact this.1
        · have hlt := this.2
          norm_num at hlt ⊢
          exact hlt⟩

/-! ## Claim C6 -/

/-- C6 (code defect, evaluated): with `motionLevel = "off"` the multi-image
path does use the constant zoom `1` for every clip, but the single-image
path (`_create_single_image_video`, used exactly when `N = 1`) hardcodes
`z='1+0.05*on/total_frames'` and never consults the motion setting: at
frame 60 of a 120-frame clip the zoom factor is `1 + 1/40 ≠ 1`, so the
`N = 1` case of the claim fails on the code. -/
theorem C6_motion_off_single_image_divergence :
    (∀ pick : ℕ, chooseZoom MotionLevel.off pick = ZoomExpr.static) ∧
      (∀ (pick totalFrames f : ℕ),
        zoomAt (chooseZoom MotionLevel.off pick) totalFrames f = 1) ∧
      singleImageZoomAt 120 60 = 1 + 1/40 ∧ (1 + 1/40 : ℚ) ≠ 1 := by
  refine ⟨fun _ => rfl, fun _ _ _ => rfl, ?_, by norm_num⟩
  norm_num [singleImageZoomAt]

/-! ## Claim C7 -/

theorem zoomIn_props (r : ℚ) (F : ℕ) (hr0 : 0 ≤ r) (hr1 : r ≤ 1/20)
    (hF : 0 < F) :
    (∃ a b : ℚ, ∀ f : ℕ, zoomAt (.zoomIn r) F f = a + b * f) ∧
      Monotone (fun f : ℕ => zoomAt (.zoomIn r) F f) ∧
      ∀ f : ℕ, f ≤ F →
        |zoomAt (.zoomIn r) F f - zoomAt (.zoomIn r) F 0| ≤ 1/20 := by
  have hFQ : (0 : ℚ) < F := by exact_mod_cast hF
  refine ⟨⟨1, r / F, fun f => by simp only [zoomAt]; ring⟩, ?_, ?_⟩
  · intro x y hxy
    have hc : (x : ℚ) ≤ y := by exact_mod_cast hxy
    simp only [zoomAt]
    have := mul_le_mul_of_nonneg_left hc hr0
    have := (div_le_div_iff_of_pos_right hFQ).mpr this
    linarith
  · intro f hf
    have hc : (f : ℚ) ≤ F := by exact_mod_cast hf
    have h0 : (0 : ℚ) ≤ r * f / F :=
      div_nonneg (mul_nonneg hr0 (by positivity)) (le_of_lt hFQ)
    have h1 : r * f / F ≤ r := by
      rw [div_le_iff₀ hFQ]
      exact mul_le_mul_of_nonneg_left hc hr0
    have heq : zoomAt (.zoomIn r) F f - zoomAt (.zoomIn r) F 0 = r * f / F := by
      simp only [zoomAt]
      push_cast
      ring
    rw [heq, abs_of_nonneg h0]
    linarith

theorem zoomOut_props (r : ℚ) (F : ℕ) (hr0 : 0 ≤ r) (hr1 : r ≤ 1/20)
    (hF : 0 < F) :
    (∃ a b : ℚ, ∀ f : ℕ, zoomAt (.zoomOut r) F f = a + b * f) ∧
      Antitone (fun f : ℕ => zoomAt (.zoomOut r) F f) ∧
      ∀ f : ℕ, f ≤ F →
        |zoomAt (.zoomOut r) F f - zoomAt (.zoomOut r) F 0| ≤ 1/20 := by
  have hFQ : (0 : ℚ) < F := by exact_mod_cast hF
  refine ⟨⟨1 + r, -(r / F), fun f => by simp only [zoomAt]; ring⟩, ?_, ?_⟩
  · intro x y hxy
    have hc : (x : ℚ) ≤ y := by exact_mod_cast hxy
    simp only [zoomAt]
    have := mul_le_mul_of_nonneg_left hc hr0
    have := (div_le_div_iff_of_pos_right hFQ).mpr this
    linarith
  · intro f hf
    have hc : (f : ℚ) ≤ F := by exact_mod_cast hf
    have h0 : (0 : ℚ) ≤ r * f / F :=
      div_nonneg (mul_nonneg hr0 (by positivity)) (le_of_lt hFQ)
    have h1 : r * f / F ≤ r := by
      rw [div_le_iff₀ hFQ]
      exact mul_le_mul_of_nonneg_left hc hr0
    have heq : zoomAt (.zoomOut r) F f - zoomAt (.zoomOut r) F 0
        = -(r * f / F) := by
      simp only [zoomAt]
      push_cast
      ring
    rw [heq, abs_neg, abs_of_nonneg h0]
    linarith

/-- C7: every zooming expression the renderer can choose — the `"slow"` and
`"medium"` draws of `_build_slideshow_single_pass` and the hardcoded
single-image zoom — is, at frame `f` of a `totalFrames`-frame clip, a linear
function of `f`, monotonic (increasing for zoom-in, decreasing for
zoom-out), and its total change across the clip never exceeds `1/20`
(5%, within the claimed ≤ ~5% default / ≤ ~15% maximum ceilings); it never
oscillates. -/
theorem C7_zoom_linear_monotone_bounded (level : MotionLevel)
    (pick totalFrames : ℕ) (e : ZoomExpr) (hF : 0 < totalFrames)
    (he : e = chooseZoom level pick ∨ e = ZoomExpr.zoomIn (1/20))
    (hne : e ≠ ZoomExpr.static) :
    (∃ a b : ℚ, ∀ f : ℕ, zoomAt e totalFrames f = a + b * f) ∧
      (Monotone (fun f : ℕ => zoomAt e totalFrames f) ∨
        Antitone (fun f : ℕ => zoomAt e totalFrames f)) ∧
      ∀ f : ℕ, f ≤ totalFrames →
        |zoomAt e totalFrames f - zoomAt e totalFrames 0| ≤ 1/20 := by
  have hcases : e = ZoomExpr.zoomIn (3/200) ∨ e = ZoomExpr.zoomIn (3/100) ∨
      e = ZoomExpr.zoomOut (3/100) ∨ e = ZoomExpr.zoomIn (1/20) := by
    rcases he with he | he
    · subst he
      cases level with
      | off => exact absurd rfl hne
      | slow =>
        by_cases h : pick % 3 = 0
        · left; simp [chooseZoom, h]
        · exact absurd (by simp [chooseZoom, h]) hne
      | medium =>
        rcases h3 : pick % 3 with _ | _ | k
        · right; left; simp [chooseZoom, h3]
        · right; right; left; simp [chooseZoom, h3]
        · exact absurd (by simp [chooseZoom, h3]) hne
    · right; right; right; exact he
  rcases hcases with h | h | h | h <;> subst h
  · have := zoomIn_props (3/200) totalFrames (by norm_num) (by norm_num) hF
    exact ⟨this.1, Or.inl this.2.1, this.2.2⟩
  · have := zoomIn_props (3/100) totalFrames (by norm_num) (by norm_num) hF
    exact ⟨this.1, Or.inl this.2.1, this.2.2⟩
  · have := zoomOut_props (3/100) totalFrames (by norm_num) (by norm_num) hF
    exact ⟨this.1, Or.inr this.2.1, this.2.2⟩
  · have := zoomIn_props (1/20) totalFrames (by norm_num) (by norm_num) hF
    exact ⟨this.1, Or.inl this.2.1, this.2.2⟩

/-- C7 witness: the slow-zoom-in expression drawn by `motionLevel="slow"`
with oracle 0, on a 120-frame (4 s) clip. -/
theorem C7_zoom_linear_monotone_bounded_witness :
    (0 < 120 ∧
      (ZoomExpr.zoomIn (3/200) = chooseZoom MotionLevel.slow 0 ∨
        ZoomExpr.zoomIn (3/200) = ZoomExpr.zoomIn (1/20)) ∧
      ZoomExpr.zoomIn (3/200) ≠ ZoomExpr.static) ∧
      ((∃ a b : ℚ, ∀ f : ℕ,
          zoomAt (ZoomExpr.zoomIn (3/200)) 120 f = a + b * f) ∧
        (Monotone (fun f : ℕ => zoomAt (ZoomExpr.zoomIn (3/200)) 120 f) ∨
          Antitone (fun f : ℕ => zoomAt (ZoomExpr.zoomIn (3/200)) 120 f)) ∧
        ∀ f : ℕ, f ≤ 120 →
          |zoomAt (ZoomExpr.zoomIn (3/200)) 120 f -
            zoomAt (ZoomExpr.zoomIn (3/200)) 120 0| ≤ 1/20) :=
  ⟨⟨by norm_num, Or.inl rfl, fun h => ZoomExpr.noConfusion h⟩,
    C7_zoom_linear_monotone_bounded MotionLevel.slow 0 120
      (ZoomExpr.zoomIn (3/200)) (by norm_num) (Or.inl rfl)
      (fun h => ZoomExpr.noConfusion h)⟩

/-! ## Claim C5 -/

/-- C5: for every probed source duration `D` accepted by the sampler
(`D ≥ 20`, the minimum floor) and every sequence of in-range random draws,
each emitted sub-clip's start and end lie inside the safe zone
`[x*D, (1-x)*D]` with `x = 0.15`; and a source shorter than the floor
contributes no sub-clips. -/
theorem C5_safe_zone (D : ℚ) (draws : List (ℚ × ℚ))
    (hdraws : ∀ p ∈ draws,
      clipMinDur ≤ p.1 ∧ p.1 ≤ clipMaxDur ∧ 0 ≤ p.2 ∧ p.2 ≤ 1) :
    (∀ s ∈ sourceClipSpecs (some D) draws,
        avoidPercent * D ≤ s.1 ∧ s.1 + s.2 ≤ (1 - avoidPercent) * D) ∧
      (D < 20 → sourceClipSpecs (some D) draws = []) := by
  constructor
  · intro s hs
    rw [mul_comm avoidPercent D, mul_comm (1 - avoidPercent) D]
    simp only [sourceClipSpecs] at hs
    by_cases h20 : D < 20
    · rw [if_pos h20] at hs
      simp at hs
    · rw [if_neg h20] at hs
      by_cases hzone : D * (1 - avoidPercent) - D * avoidPercent < 10
      · rw [if_pos hzone] at hs
        simp at hs
      · rw [if_neg hzone] at hs
        rw [List.mem_filterMap] at hs
        obtain ⟨dw, hdw, heq⟩ := hs
        obtain ⟨cd, u⟩ := dw
        obtain ⟨hcd1, hcd2, hu0, hu1⟩ := hdraws (cd, u) hdw
        simp only at heq hcd1 hcd2 hu0 hu1
        by_cases hms : D * (1 - avoidPercent) - cd ≤ D * avoidPercent
        · rw [if_pos hms] at heq
          exact absurd heq (by simp)
        · rw [if_neg hms] at heq
          have hs1 : s = (D * avoidPercent +
              u * (D * (1 - avoidPercent) - cd - D * avoidPercent), cd) := by
            injection heq with h
            exact h.symm
          subst hs1
          have hδ : (0 : ℚ) < D * (1 - avoidPercent) - cd - D * avoidPercent := by
            linarith [not_le.mp hms]
          have hlo : 0 ≤ u * (D * (1 - avoidPercent) - cd - D * avoidPercent) :=
            mul_nonneg hu0 (le_of_lt hδ)
          have hhi : u * (D * (1 - avoidPercent) - cd - D * avoidPercent) ≤
              D * (1 - avoidPercent) - cd - D * avoidPercent :=
            mul_le_of_le_one_left (le_of_lt hδ) hu1
          constructor
          · simp only
            linarith
          · simp only
            linarith
  · intro h20
    simp only [sourceClipSpecs, if_pos h20]

/-- C5 witness: a 40-second source and the single draw
`(clip_dur, u) = (2, 1/2)`, which yields the sub-clip `(start, dur) =
(19, 2)` inside the safe zone `[6, 34]`. -/
theorem C5_safe_zone_witness :
    (∀ p ∈ [((2 : ℚ), (1/2 : ℚ))],
        clipMinDur ≤ p.1 ∧ p.1 ≤ clipMaxDur ∧ 0 ≤ p.2 ∧ p.2 ≤ 1) ∧
      ((∀ s ∈ sourceClipSpecs (some 40) [((2 : ℚ), (1/2 : ℚ))],
          avoidPercent * 40 ≤ s.1 ∧ s.1 + s.2 ≤ (1 - avoidPercent) * 40) ∧
        ((40 : ℚ) < 20 → sourceClipSpecs (some 40) [((2 : ℚ), (1/2 : ℚ))] = [])) := by
  have hd : ∀ p ∈ [((2 : ℚ), (1/2 : ℚ))],
      clipMinDur ≤ p.1 ∧ p.1 ≤ clipMaxDur ∧ 0 ≤ p.2 ∧ p.2 ≤ 1 := by
    intro p hp
    simp only [List.mem_singleton] at hp
    subst hp
    norm_num [clipMinDur, clipMaxDur]
  exact ⟨hd, C5_safe_zone 40 [((2 : ℚ), (1/2 : ℚ))] hd⟩

/-! ## Claim C8 -/

/-- C8: when a target total duration `T > 0` is supplied and `N ≥ 1` images
survive filtering, the per-unit duration equals `T / N` clamped to
`[2.5, 6]` (within the claimed "roughly 2-6 seconds"); in particular 8
images with `T = 32` give exactly 4.0 s per unit, hence 7 transitions and 7
stinger placements. -/
theorem C8_per_unit_duration (base target : ℚ) (n : ℕ)
    (htarget : 0 < target) (hn : 0 < n) :
    (5/2 ≤ secondsPerImage base (some target) n ∧
        secondsPerImage base (some target) n ≤ 6) ∧
      (5/2 ≤ target / n → target / n ≤ 6 →
        secondsPerImage base (some target) n = target / n) ∧
      (target / n ≤ 5/2 → secondsPerImage base (some target) n = 5/2) ∧
      (6 ≤ target / n → secondsPerImage base (some target) n = 6) ∧
      secondsPerImage base (some 32) 8 = 4 ∧
      (xfadeOffsets 8 4 (1/2)).length = 7 ∧
      (stingPlacements 8 4).length = 7 := by
  have hcond : target ≠ 0 ∧ 0 < n := ⟨ne_of_gt htarget, hn⟩
  simp only [secondsPerImage, if_pos hcond]
  refine ⟨⟨le_max_left _ _, max_le (by norm_num) (min_le_left _ _)⟩,
    ?_, ?_, ?_, ?_, ?_, ?_⟩
  · intro h1 h2
    rw [min_eq_right h2, max_eq_right h1]
  · intro h
    rw [min_eq_right (le_trans h (by norm_num)), max_eq_left h]
  · intro h
    rw [min_eq_left h]
    exact max_eq_right (by norm_num)
  · norm_num [secondsPerImage]
  · norm_num [xfadeOffsets, xfadeOffsetsFrom_length]
  · norm_num [stingPlacements, stingLoop]

/-- C8 witness: target 32 s over 8 images. -/
theorem C8_per_unit_duration_witness :
    ((0 : ℚ) < 32 ∧ 0 < 8) ∧
      (5/2 ≤ secondsPerImage 4 (some 32) 8 ∧ secondsPerImage 4 (some 32) 8 ≤ 6) ∧
      secondsPerImage 4 (some 32) 8 = 4 :=
  have h := C8_per_unit_duration 4 32 8 (by norm_num) (by norm_num)
  ⟨⟨by norm_num, by norm_num⟩, h.1, h.2.2.2.2.1⟩

/-! ## Claim C4 -/

theorem filter_self_idem (p : String → Bool) (l : List String) :
    (l.filter p).filter p = l.filter p := by
  simp [List.filter_filter]

theorem slideshowFinish_fst (w : SlideshowWorld) (fs : FSState) :
    (slideshowFinish w fs).1 = none ∨
      (slideshowFinish w fs).1 = some slideshowOutputName := by
  simp only [slideshowFinish]
  split_ifs
  · right; rfl
  · left; rfl

theorem slideshowAfterBuild_fst (w : SlideshowWorld) (fs : FSState) :
    (slideshowAfterBuild w fs).1 = none ∨
      (slideshowAfterBuild w fs).1 = some slideshowOutputName := by
  simp only [slideshowAfterBuild]
  split_ifs
  all_goals first
    | (left; rfl)
    | exact slideshowFinish_fst w _

theorem createSlideshow_fst (w : SlideshowWorld) (images : List String) :
    (createSlideshow w images).1 = none ∨
      (createSlideshow w images).1 = some slideshowOutputName := by
  simp only [createSlideshow]
  split_ifs
  all_goals first
    | (left; rfl)
    | exact slideshowAfterBuild_fst w _

theorem createPortrait_cases (w : PortraitWorld) (images : List String) :
    createPortrait w images = none ∨
      createPortrait w images = some portraitOutputName := by
  simp only [createPortrait]
  split_ifs
  all_goals first | (left; rfl) | (right; rfl)

theorem createYoutubeMix_cases (w : YtWorld) (videos : List String) :
    createYoutubeMix w videos = none ∨
      createYoutubeMix w videos = some youtubeOutputName := by
  simp only [createYoutubeMix]
  split_ifs
  all_goals first | (left; rfl) | (right; rfl)

/-- C4: each render entry point first silently drops assets missing from
disk (running it on the raw list equals running it on the pre-filtered
list), returns `None` when no assets survive, and always returns either the
output path or `None` — exceptions raised by internal steps are caught by
the entry point's `except` and reported as `None` (shown here for the
slideshow's single-pass build step and the portrait build step). -/
theorem C4_entry_points (w : SlideshowWorld) (wp : PortraitWorld)
    (wy : YtWorld) (images pimages videos : List String) :
    (createSlideshow w images = createSlideshow w (images.filter w.onDisk)) ∧
      (images.filter w.onDisk = [] → (createSlideshow w images).1 = none) ∧
      ((createSlideshow w images).1 = none ∨
        (createSlideshow w images).1 = some slideshowOutputName) ∧
      (w.singlePassStep.raised = true → 2 ≤ (images.filter w.onDisk).length →
        (createSlideshow w images).1 = none) ∧
      (createPortrait wp pimages
        = createPortrait wp (pimages.filter wp.onDisk)) ∧
      (pimages.filter wp.onDisk = [] → createPortrait wp pimages = none) ∧
      (createPortrait wp pimages = none ∨
        createPortrait wp pimages = some portraitOutputName) ∧
      (wp.buildRaised = true → createPortrait wp pimages = none) ∧
      (createYoutubeMix wy videos
        = createYoutubeMix wy (videos.filter wy.onDisk)) ∧
      (videos.filter wy.onDisk = [] → createYoutubeMix wy videos = none) ∧
      (createYoutubeMix wy videos = none ∨
        createYoutubeMix wy videos = some youtubeOutputName) := by
  refine ⟨?_, ?_, createSlideshow_fst w images, ?_, ?_, ?_,
    createPortrait_cases wp pimages, ?_, ?_, ?_,
    createYoutubeMix_cases wy videos⟩
  · simp only [createSlideshow, filter_self_idem]
  · intro h
    simp [createSlideshow, h]
  · intro hr hlen
    have hne : images.filter w.onDisk ≠ [] := by
      intro hnil
      rw [hnil] at hlen
      simp at hlen
    have hne1 : ¬ (images.filter w.onDisk).length = 1 := by omega
    simp only [createSlideshow, if_neg hne, if_neg hne1, if_pos hr]
  · simp only [createPortrait, filter_self_idem]
  · intro h
    simp [createPortrait, h]
  · intro hr
    by_cases h : pimages.filter wp.onDisk = []
    · simp [createPortrait, h]
    · simp only [createPortrait, if_neg h, if_pos hr]
  · simp only [createYoutubeMix, filter_self_idem]
  · intro h
    simp [createYoutubeMix, h]

/-- C4 witness: concrete worlds where no asset exists on disk — each entry
point returns `None` — plus a raised single-pass build turned into `None`. -/
theorem C4_entry_points_witness :
    (["a.jpg"].filter emptyDiskSlideshowWorld.onDisk = [] ∧
      (createSlideshow emptyDiskSlideshowWorld ["a.jpg"]).1 = none) ∧
      (["a.jpg"].filter emptyDiskPortraitWorld.onDisk = [] ∧
        createPortrait emptyDiskPortraitWorld ["a.jpg"] = none) ∧
      (["a.mp4"].filter emptyDiskYtWorld.onDisk = [] ∧
        createYoutubeMix emptyDiskYtWorld ["a.mp4"] = none) :=
  have h := C4_entry_points emptyDiskSlideshowWorld emptyDiskPortraitWorld
    emptyDiskYtWorld ["a.jpg"] ["a.jpg"] ["a.mp4"]
  ⟨⟨rfl, h.2.1 rfl⟩, ⟨rfl, h.2.2.2.2.2.1 rfl⟩,
    ⟨rfl, h.2.2.2.2.2.2.2.2.2.1 rfl⟩⟩

/-! ## Claim C9 -/

/-- C9: the audio stage never fails a render.  `_add_sfx_single_pass`
produces a video-only copy when the sound pool is empty and when the ffmpeg
mix errors (its other outcome being the full mix), and `create_slideshow`
with an empty sound pool passes the video-only composite through to a
successful validated result. -/
theorem C9_audio_stage_never_fails (sf : List String) (N : ℕ) (d : ℚ)
    (mixOk : Bool) (w : SlideshowWorld) (images : List String) :
    (sf = [] → addSfxSinglePass sf N d mixOk = SfxResult.videoCopy) ∧
      (mixOk = false → addSfxSinglePass sf N d mixOk = SfxResult.videoCopy) ∧
      (addSfxSinglePass sf N d mixOk = SfxResult.mixed ∨
        addSfxSinglePass sf N d mixOk = SfxResult.videoCopy) ∧
      (w.soundFiles = [] → w.singlePassStep.ok = true →
        w.singlePassStep.leftFile = true → w.singlePassStep.raised = false →
        w.validates = true → 2 ≤ (images.filter w.onDisk).length →
        (createSlideshow w images).1 = some slideshowOutputName) := by
  refine ⟨?_, ?_, ?_, ?_⟩
  · intro h
    simp [addSfxSinglePass, h]
  · intro h
    subst h
    unfold addSfxSinglePass
    split_ifs <;> first | rfl | contradiction
  · unfold addSfxSinglePass
    split_ifs
    · right; rfl
    · right; rfl
    · right; rfl
    · left; rfl
    · right; rfl
  · intro hsf hok hleft hraise hval hlen
    have hne : images.filter w.onDisk ≠ [] := by
      intro hnil
      rw [hnil] at hlen
      simp at hlen
    have hne1 : ¬ (images.filter w.onDisk).length = 1 := by omega
    rw [Bool.eq_false_iff] at hraise
    simp only [createSlideshow, if_neg hne, if_neg hne1, if_neg hraise,
      if_pos hok]
    simp only [slideshowAfterBuild, hsf, hleft, ne_eq, not_true_eq_false,
      false_and, if_false, if_pos rfl]
    simp [slideshowFinish, hval]

/-- C9 witness: empty pool, mix error, and a concrete slideshow world with
no sounds whose render still succeeds. -/
theorem C9_audio_stage_never_fails_witness :
    addSfxSinglePass [] 5 4 true = SfxResult.videoCopy ∧
      addSfxSinglePass ["s.mp3"] 5 4 false = SfxResult.videoCopy ∧
      (createSlideshow goodSlideshowWorld ["a.jpg", "b.jpg"]).1
        = some slideshowOutputName :=
  ⟨(C9_audio_stage_never_fails [] 5 4 true goodSlideshowWorld []).1 rfl,
    (C9_audio_stage_never_fails ["s.mp3"] 5 4 false goodSlideshowWorld []).2.1
      rfl,
    (C9_audio_stage_never_fails [] 5 4 true goodSlideshowWorld
      ["a.jpg", "b.jpg"]).2.2.2 rfl rfl rfl rfl rfl (by decide)⟩

/-! ## Claim C10 -/

/-- C10 (code defect, evaluated): when `_build_slideshow_single_pass` fails
leaving a partial `_single_pass.mp4` (ffmpeg wrote ≤ 1000 bytes, so the
function returns `False`) and `_build_slideshow_fallback` also fails,
`create_slideshow` returns `None` from line 141 without ever reaching the
`_safe_delete(temp_video)` on line 151: the render exits on a failure path
with the temp file still on disk (`FSState.tempVideo = true`),
contradicting deletion on every exit path. -/
theorem C10_temp_leak_on_double_build_failure :
    createSlideshow leakWorld ["img1.jpg", "img2.jpg"]
      = (none, ⟨true, false⟩) := by
  rfl

end DaEditor
